import Mathlib

/-!
Verification of the MCP tool-protocol engine of this repository
(package ollama_mcp_client: mcp/tool_executor.py, mcp/tool_discovery.py,
mcp/server_manager.py, mcp/tools.py and core/llm_client.py).

The Python code is shallowly embedded: JSON values become the inductive
type J, runtime faults (exceptions) become Except values at exactly the
places the source can raise and are caught exactly where the source has
try/except, and blocking reads that may never return are modelled by
Option (none = the read never returns, so no result is ever produced).
External effects (the json module, the subprocess pipes, HTTP, local
callables) are oracles passed in as function arguments, so every theorem
quantifies over their behaviour.
-/

namespace OllamaMCP

/-- JSON-like values as produced by json.loads and passed around the
client.  Numbers are modelled as integers; no claim depends on float
behaviour. -/
inductive J where
  | null : J
  | bool (b : Bool) : J
  | num (n : Int) : J
  | str (s : String) : J
  | arr (xs : List J) : J
  | obj (fields : List (String × J)) : J
deriving Repr

mutual

/-- Python repr() rendering of a JSON-shaped value (the rendering used
inside containers by str()). -/
def pyRepr : J → String
  | .null => "None"
  | .bool true => "True"
  | .bool false => "False"
  | .num n => toString n
  | .str s => "\x27" ++ s ++ "\x27"
  | .arr xs => "[" ++ pyReprList xs ++ "]"
  | .obj fs => "\x7b" ++ pyReprFields fs ++ "\x7d"

/-- Comma-separated repr of list elements. -/
def pyReprList : List J → String
  | [] => ""
  | [x] => pyRepr x
  | x :: y :: xs => pyRepr x ++ ", " ++ pyReprList (y :: xs)

/-- Comma-separated repr of dict entries. -/
def pyReprFields : List (String × J) → String
  | [] => ""
  | [(k, v)] => "\x27" ++ k ++ "\x27: " ++ pyRepr v
  | (k, v) :: f :: fs => "\x27" ++ k ++ "\x27: " ++ pyRepr v ++ ", " ++ pyReprFields (f :: fs)

end

/-- Python str() of a JSON-shaped value: strings render bare, everything
else as repr. -/
def pyStr : J → String
  | .str s => s
  | j => pyRepr j

/-- Lookup in a dict modelled as an association list (keys unique in any
dict json.loads can produce; first match). -/
def jLookup (fields : List (String × J)) (k : String) : Option J :=
  match fields with
  | [] => none
  | (k2, v) :: rest => if k2 = k then some v else jLookup rest k

/-- Python d.get(k, default): defined on dicts only; any other receiver
raises AttributeError. -/
def pyGet (j : J) (k : String) (d : J) : Except String J :=
  match j with
  | .obj fs => .ok ((jLookup fs k).getD d)
  | _ => .error "AttributeError"

/-- Substring test on character lists (leftmost scan). -/
def listContains (pat : List Char) : List Char → Bool
  | [] => pat.isEmpty
  | c :: cs => pat.isPrefixOf (c :: cs) || listContains pat cs

/-- Python (k in j): key test on dicts, membership on lists, substring
test on strings, TypeError otherwise. -/
def pyIn (k : String) (j : J) : Except String Bool :=
  match j with
  | .obj fs => .ok (fs.any (fun p => p.1 == k))
  | .arr xs => .ok (xs.any (fun x => match x with | .str s => s == k | _ => false))
  | .str s => .ok (listContains k.data s.data)
  | _ => .error "TypeError: argument is not iterable"

/-- Python j[k] with a string key: dict lookup (KeyError when absent),
TypeError on any other receiver. -/
def pyIndexKey (j : J) (k : String) : Except String J :=
  match j with
  | .obj fs =>
    match jLookup fs k with
    | some v => .ok v
    | none => .error "KeyError"
  | _ => .error "TypeError: not subscriptable by str"

/-- Python truthiness of a JSON-shaped value. -/
def J.truthy : J → Bool
  | .null => false
  | .bool b => b
  | .num n => n != 0
  | .str s => s != ""
  | .arr xs => !xs.isEmpty
  | .obj fs => !fs.isEmpty

/-- Python len(): sized receivers only, TypeError otherwise. -/
def pyLen : J → Except String Nat
  | .str s => .ok s.length
  | .arr xs => .ok xs.length
  | .obj fs => .ok fs.length
  | _ => .error "TypeError: has no len"

/-- Python j[0]: list indexing, string indexing, KeyError on a
string-keyed dict, TypeError otherwise. -/
def pyIndex0 : J → Except String J
  | .arr (x :: _) => .ok x
  | .arr [] => .error "IndexError"
  | .str s =>
    match s.data with
    | c :: _ => .ok (.str (String.mk [c]))
    | [] => .error "IndexError"
  | .obj _ => .error "KeyError: 0"
  | _ => .error "TypeError"

/-- Python iteration (for x in j): list elements, string characters,
dict keys, TypeError otherwise. -/
def pyIter : J → Except String (List J)
  | .arr xs => .ok xs
  | .str s => .ok (s.data.map (fun c => J.str (String.mk [c])))
  | .obj fs => .ok (fs.map (fun p => J.str p.1))
  | _ => .error "TypeError: not iterable"

/-- The whitespace set stripped by Python str.strip(). -/
def pySpace (c : Char) : Bool :=
  c == ' ' || c == '\t' || c == '\n' || c == '\r' || c == '\x0b' || c == '\x0c'

/-- Python s.strip(). -/
def pyStrip (s : String) : String :=
  String.mk (((s.data.dropWhile pySpace).reverse.dropWhile pySpace).reverse)

/-- Replace every non-overlapping occurrence of pat by rep, scanning left
to right.  This is exactly Python str.replace; it is also exactly re.sub
with a fully escaped literal pattern whenever the replacement contains no
backslash — re.sub additionally runs template escape processing on the
replacement (group references, and re.error on bad escapes), so every
theorem using this as a model of re.sub carries a backslash-free
hypothesis on the replacement strings.  An empty pattern, which this code
never uses, is a no-op here. -/
def replaceAllL (pat rep : List Char) : List Char → List Char
  | [] => []
  | c :: cs =>
    if h : pat ≠ [] ∧ pat.isPrefixOf (c :: cs) then
      rep ++ replaceAllL pat rep ((c :: cs).drop pat.length)
    else
      c :: replaceAllL pat rep cs
termination_by l => l.length
decreasing_by
  · simp only [List.length_drop, List.length_cons]
    have hp : 0 < pat.length := List.length_pos.mpr h.1
    omega
  · simp

/-- Python s.replace(pat, rep). -/
def pyReplace (s pat rep : String) : String :=
  String.mk (replaceAllL pat.data rep.data s.data)

/-! ## Data of servers and tools -/

/-- The observable behaviour of one subprocess server's pipes, one slot
per read/write the code performs.  A write is Except (broken pipes raise);
a read is none when the server never replies (the readline call blocks
forever — the code passes no timeout), and some line when a line arrives
(the empty string models EOF). -/
structure ProcIO where
  writeInit : Except String Unit := .ok ()
  readInit : Option String := some ""
  writeNotif : Except String Unit := .ok ()
  writeToolsList : Except String Unit := .ok ()
  readToolsList : Option String := some ""
  writeCall : Except String Unit := .ok ()
  readCall : Option String := some ""

/-- One discovered tool, as the dict built by tool discovery.  The name
and server_name are genuine Python strings (built by f-strings); the
description and parameters keep their raw JSON value.  func models the
"function" entry of local-module tools (the callable may raise). -/
structure ToolInfo where
  name : String
  server_name : String
  description : J := J.str ""
  parameters : J := J.obj []
  func : Option (J → Except String J) := none

/-- A callable of a local Python module as introspected by discovery:
its attribute name, its docstring (None when absent), its parameter table
from inspect.signature (name, inferred type string, required), and the
callable itself.  The list comes in dir() order. -/
structure LocalFn where
  fname : String
  doc : Option String := none
  params : List (String × String × Bool) := []
  fn : J → Except String J := fun _ => .ok J.null

/-- Server configuration entries read by the code under test. -/
structure ServerConfig where
  enabled : Bool := true
  stype : Option String := none
  url : Option String := none
  description : Option String := none
  module_path : Option String := none

/-- A live server entry of ServerManager.servers. -/
structure ServerInfo where
  stype : String
  config : ServerConfig
  proc : Option ProcIO := none
  module : Option (List LocalFn) := none

/-- ToolExecutor._call_subprocess_tool, lines 100-111: unwrap a decoded
tools/call response; the enclosing except converts any raised fault to
the error string of line 115.  A non-string value returned raw by the
source is rendered with pyStr, which is exactly how every caller
interpolates it into an f-string. -/
def unwrapCallResponse (resp : J) : String :=
  match pyIn "result" resp with
  | .error e => "❌ Error calling subprocess tool: " ++ e
  | .ok true =>
    match pyIndexKey resp "result" with
    | .error e => "❌ Error calling subprocess tool: " ++ e
    | .ok res =>
      match pyGet res "content" (J.arr []) with
      | .error e => "❌ Error calling subprocess tool: " ++ e
      | .ok content =>
        if content.truthy then
          match pyLen content with
          | .error e => "❌ Error calling subprocess tool: " ++ e
          | .ok l =>
            if l > 0 then
              match pyIndex0 content with
              | .error e => "❌ Error calling subprocess tool: " ++ e
              | .ok first =>
                match pyGet first "text" (J.str "No result") with
                | .error e => "❌ Error calling subprocess tool: " ++ e
                | .ok t => pyStr t
            else "No content in result"
        else "No content in result"
  | .ok false =>
    match pyIn "error" resp with
    | .error e => "❌ Error calling subprocess tool: " ++ e
    | .ok true =>
      match pyIndexKey resp "error" with
      | .error e => "❌ Error calling subprocess tool: " ++ e
      | .ok err =>
        match pyGet err "message" (J.str "Unknown error") with
        | .error e => "❌ Error calling subprocess tool: " ++ e
        | .ok m => "❌ Tool error: " ++ pyStr m
    | .ok false => "❌ Invalid response format"

/-- ToolExecutor._call_subprocess_tool, lines 79-115: strip the
namespace, send the tools/call request and read one response line.  jl is
the json.loads oracle; the server's reply is the io oracle (the request
payload is built exactly as in the source, though a scripted server need
not inspect it).  The result is none exactly when the blocking readline
never returns. -/
def callSubprocessToolCore (jl : String → Except String J) (io : ProcIO)
    (namespacedName : String) (args : J) : Option String :=
  let toolName := pyReplace namespacedName "local_server_" ""
  let _request : J := J.obj
    [("jsonrpc", J.str "2.0"), ("id", J.num 2), ("method", J.str "tools/call"),
     ("params", J.obj [("name", J.str toolName), ("arguments", args)])]
  match io.writeCall with
  | .error e => some ("❌ Error calling subprocess tool: " ++ e)
  | .ok _ =>
    match io.readCall with
    | none => none
    | some line =>
      if line ≠ "" then
        match jl (pyStrip line) with
        | .error e => some ("❌ Error calling subprocess tool: " ++ e)
        | .ok resp => some (unwrapCallResponse resp)
      else some "❌ No response from subprocess"

/-- ToolExecutor._call_local_tool: invoke the registered callable and
stringify; exceptions become failure strings. -/
def callLocalTool (ti : ToolInfo) (args : J) : String :=
  match ti.func with
  | none => "❌ No function found for local tool"
  | some f =>
    match f args with
    | .ok v => pyStr v
    | .error e => "❌ Error executing local tool: " ++ e

/-- The HTTP oracle for remote servers: a request yields either a
transport fault, or a status code together with the body-decoding outcome
(response.json() may itself raise).  get serves GET url/tools, post
serves POST url/execute. -/
structure HttpEnv where
  post : String → J → Except String (Nat × Except String J)
  get : String → Except String (Nat × Except String J)

/-- ToolExecutor._call_remote_tool: POST to the execute endpoint of the
configured url; every fault becomes a failure string. -/
def callRemoteTool (env : HttpEnv) (ti : ToolInfo) (args : J) (si : ServerInfo) : String :=
  let toolName := pyReplace ti.name "remote_server_" ""
  match si.config.url with
  | none => "❌ No URL configured for remote server"
  | some u =>
    if u = "" then "❌ No URL configured for remote server"
    else
      match env.post u (J.obj [("tool", J.str toolName), ("arguments", args)]) with
      | .error e => "❌ Error calling remote tool: " ++ e
      | .ok (status, body) =>
        if status = 200 then
          match (do
            let b ← body
            let r ← pyGet b "result" (J.str "No result")
            pure (pyStr r) : Except String String) with
          | .ok s => s
          | .error e => "❌ Error calling remote tool: " ++ e
        else "❌ Remote tool call failed with status " ++ toString status

/-- ServerManager.get_server: dict lookup (the Python code then treats
the empty-dict default as "not found" by truthiness). -/
def getServer (servers : List (String × ServerInfo)) (name : String) : Option ServerInfo :=
  match servers with
  | [] => none
  | (n, si) :: rest => if n = name then some si else getServer rest name

/-- ToolExecutor.call_tool: dispatch on the owning server's type.  Every
branch converts faults to failure strings internally; the result is none
only when a subprocess read blocks forever. -/
def ToolExecutor.call_tool (jl : String → Except String J) (env : HttpEnv)
    (servers : List (String × ServerInfo)) (ti : ToolInfo) (args : J) : Option String :=
  match getServer servers ti.server_name with
  | none => some ("❌ Server \x27" ++ ti.server_name ++ "\x27 not found")
  | some si =>
    match si.stype with
    | "local" => some (callLocalTool ti args)
    | "remote" => some (callRemoteTool env ti args si)
    | "subprocess" =>
      match si.proc with
      | none => some "❌ No process found for subprocess server"
      | some io => callSubprocessToolCore jl io ti.name args
    | t => some ("❌ Unknown server type: " ++ t)

/-- MCPTools.call_tool: locate the tool by its namespaced name in the
discovered list, then delegate to the executor. -/
def MCPTools.call_tool (jl : String → Except String J) (env : HttpEnv)
    (servers : List (String × ServerInfo)) (available : List ToolInfo)
    (toolName : String) (args : J) : Option String :=
  match available.find? (fun t => t.name == toolName) with
  | none => some ("❌ Tool \x27" ++ toolName ++ "\x27 not found")
  | some ti => ToolExecutor.call_tool jl env servers ti args

/-! ## Tool discovery (mcp/tool_discovery.py) -/

/-- The parameter dict built by ToolDiscovery._extract_tool_parameters. -/
def extractParamsJ (ps : List (String × String × Bool)) : J :=
  J.obj (ps.map (fun p => (p.1, J.obj [("type", J.str p.2.1), ("required", J.bool p.2.2)])))

/-- ToolDiscovery._discover_local_tools: every callable module attribute
whose name does not start with an underscore becomes a tool named
local_server_{attributeName}. -/
def discoverLocalTools (fns : List LocalFn) : List ToolInfo :=
  (fns.filter (fun f => !f.fname.startsWith "_")).map (fun f =>
    { name := "local_server_" ++ f.fname
      server_name := "local_server"
      description := match f.doc with | some d => J.str d | none => J.null
      parameters := extractParamsJ f.params
      func := some f.fn })

/-- One entry of the remote tools listing (the source also stores the
base url in the dict, which no later code reads). -/
def remoteToolFromData (td : J) : Except String ToolInfo := do
  let n ← pyGet td "name" (J.str "unknown")
  let d ← pyGet td "description" (J.str "Remote tool")
  let p ← pyGet td "parameters" (J.obj [])
  pure { name := "remote_server_" ++ pyStr n
         server_name := "remote_server"
         description := d
         parameters := p }

/-- The accumulation loop over tools entries: a fault at one entry is
caught by the surrounding except, which returns the tools appended so
far. -/
def buildRemoteTools : List J → List ToolInfo → List ToolInfo
  | [], acc => acc
  | td :: rest, acc =>
    match remoteToolFromData td with
    | .ok ti => buildRemoteTools rest (acc ++ [ti])
    | .error _ => acc

/-- ToolDiscovery._discover_remote_tools: GET url/tools; any fault yields
the tools accumulated so far (none). -/
def discoverRemoteTools (env : HttpEnv) (si : ServerInfo) : List ToolInfo :=
  match si.config.url with
  | none => []
  | some u =>
    if u = "" then []
    else
      match env.get u with
      | .error _ => []
      | .ok (status, body) =>
        if status = 200 then
          match (do
            let b ← body
            let ts ← pyGet b "tools" (J.arr [])
            pyIter ts : Except String (List J)) with
          | .ok items => buildRemoteTools items []
          | .error _ => []
        else []

/-- One entry of a subprocess tools/list result, named with the
hard-coded prefix local_server_ of tool_discovery.py line 161. -/
def toolInfoFromData (td : J) : Except String ToolInfo := do
  let n ← pyGet td "name" (J.str "unknown")
  let d ← pyGet td "description" (J.str "Tool description")
  let schema ← pyGet td "inputSchema" (J.obj [])
  let props ← pyGet schema "properties" (J.obj [])
  pure { name := "local_server_" ++ pyStr n
         server_name := "local_server"
         description := d
         parameters := props }

/-- The accumulation loop over tools/list entries; a fault at one entry
is caught by the surrounding except, which returns the tools appended so
far. -/
def buildSubprocessTools : List J → List ToolInfo → List ToolInfo
  | [], acc => acc
  | td :: rest, acc =>
    match toolInfoFromData td with
    | .ok ti => buildSubprocessTools rest (acc ++ [ti])
    | .error _ => acc

/-- ToolDiscovery._discover_subprocess_tools: the initialize handshake,
the initialized notification, then tools/list, all over the process's
pipes with no read timeout.  Any fault yields the tools accumulated so
far; a read that never returns makes the whole discovery never return
(none). -/
def discoverSubprocessTools (jl : String → Except String J) (io : ProcIO) :
    Option (List ToolInfo) :=
  let _initializeRequest : J := J.obj
    [("jsonrpc", J.str "2.0"), ("id", J.num 1), ("method", J.str "initialize"),
     ("params", J.obj
       [("protocolVersion", J.str "2024-11-05"), ("capabilities", J.obj []),
        ("clientInfo", J.obj [("name", J.str "ollama-mcp-client"), ("version", J.str "1.0.0")])])]
  match io.writeInit with
  | .error _ => some []
  | .ok _ =>
    match io.readInit with
    | none => none
    | some line =>
      if line ≠ "" then
        match jl (pyStrip line) with
        | .error _ => some []
        | .ok resp =>
          match pyIn "result" resp with
          | .error _ => some []
          | .ok false => some []
          | .ok true =>
            match io.writeNotif with
            | .error _ => some []
            | .ok _ =>
              match io.writeToolsList with
              | .error _ => some []
              | .ok _ =>
                match io.readToolsList with
                | none => none
                | some tline =>
                  if tline ≠ "" then
                    match jl (pyStrip tline) with
                    | .error _ => some []
                    | .ok tr =>
                      match (do
                        let hasRes ← pyIn "result" tr
                        if hasRes then do
                          let res ← pyIndexKey tr "result"
                          let hasTools ← pyIn "tools" res
                          if hasTools then do
                            let toolsJ ← pyIndexKey res "tools"
                            let items ← pyIter toolsJ
                            pure (some items)
                          else pure none
                        else pure none : Except String (Option (List J))) with
                      | .ok (some items) => some (buildSubprocessTools items [])
                      | .ok none => some []
                      | .error _ => some []
                  else some []
      else some []

/-- ToolDiscovery._discover_server_tools: dispatch on the server type. -/
def discoverServerTools (jl : String → Except String J) (env : HttpEnv)
    (si : ServerInfo) : Option (List ToolInfo) :=
  match si.stype with
  | "local" => some (discoverLocalTools (si.module.getD []))
  | "remote" => some (discoverRemoteTools env si)
  | "subprocess" =>
    match si.proc with
    | none => some []
    | some p => discoverSubprocessTools jl p
  | _ => some []

/-- ToolDiscovery.discover_all_tools: each server's tools are gathered
independently, a per-server failure having already been converted to an
empty or partial list; only a read that never returns stalls the whole
loop. -/
def ToolDiscovery.discover_all_tools (jl : String → Except String J) (env : HttpEnv)
    (servers : List (String × ServerInfo)) : Option (List ToolInfo) :=
  match servers with
  | [] => some []
  | (_, si) :: rest => do
    let ts ← discoverServerTools jl env si
    let more ← ToolDiscovery.discover_all_tools jl env rest
    pure (ts ++ more)

/-! ## Server lifecycle (mcp/server_manager.py) -/

/-- The process-spawning and module-import oracle of the host system. -/
structure SpawnEnv where
  spawn : String → ServerConfig → Except String ProcIO
  findModule : String → Option (List LocalFn)

/-- ServerManager._initialize_server: build one server entry, or none
when the server is disabled, its spawn or import fails, or its type is
unknown — the failure is only printed, never raised. -/
def ServerManager.initialize_server (env : SpawnEnv) (name : String)
    (cfg : ServerConfig) : Option ServerInfo :=
  if !cfg.enabled then none
  else
    match cfg.stype with
    | some "subprocess" =>
      match env.spawn name cfg with
      | .ok p => some { stype := "subprocess", config := cfg, proc := some p }
      | .error _ => none
    | some "local" =>
      match cfg.module_path with
      | some mp =>
        match env.findModule mp with
        | some fns => some { stype := "local", config := cfg, module := some fns }
        | none => none
      | none => none
    | some "remote" => some { stype := "remote", config := cfg }
    | _ => none

/-- ServerManager.initialize_servers: every configured server is tried in
order; failed ones are simply absent from the resulting dict. -/
def ServerManager.initialize_servers (env : SpawnEnv)
    (cfg : List (String × ServerConfig)) : List (String × ServerInfo) :=
  match cfg with
  | [] => []
  | (n, c) :: rest =>
    match ServerManager.initialize_server env n c with
    | some si => (n, si) :: ServerManager.initialize_servers env rest
    | none => ServerManager.initialize_servers env rest

/-! ## The catalog description (mcp/tools.py) -/

/-- Insertion-ordered grouping step for get_tools_description. -/
def groupInsert (acc : List (String × List ToolInfo)) (sname : String)
    (t : ToolInfo) : List (String × List ToolInfo) :=
  match acc with
  | [] => [(sname, [t])]
  | (n, ts) :: rest =>
    if n = sname then (n, ts ++ [t]) :: rest
    else (n, ts) :: groupInsert rest sname t

/-- Group tools by server_name in order of first appearance, as a Python
dict built by appending does. -/
def groupByServer (tools : List ToolInfo) : List (String × List ToolInfo) :=
  tools.foldl (fun acc t => groupInsert acc t.server_name t) []

/-- The parameter fragments "{name} ({type})[ (required)]" of one tool;
param_info.get raises on a non-dict entry. -/
def paramStrings (params : List (String × J)) : Except String (List String) :=
  match params with
  | [] => .ok []
  | (pn, pi) :: rest => do
    let ty ← pyGet pi "type" (J.str "string")
    let req ← pyGet pi "required" (J.bool false)
    let srest ← paramStrings rest
    pure ((pn ++ " (" ++ pyStr ty ++ ")" ++ (if req.truthy then " (required)" else "")) :: srest)

/-- The per-tool lines of get_tools_description; .items() on a non-dict
parameters value raises. -/
def toolDescLines (tools : List ToolInfo) : Except String String :=
  match tools with
  | [] => .ok ""
  | t :: rest => do
    let base := "  - " ++ t.name ++ ": " ++ pyStr t.description ++ "\n"
    let pl ←
      match t.parameters with
      | J.obj fs => do
        let ps ← paramStrings fs
        pure (if ps.isEmpty then "" else "    Parameters: " ++ String.intercalate ", " ps ++ "\n")
      | _ => (.error "AttributeError: items" : Except String String)
    let srest ← toolDescLines rest
    pure (base ++ pl ++ srest)

/-- The per-server sections of get_tools_description. -/
def serverSections (servers : List (String × ServerInfo))
    (groups : List (String × List ToolInfo)) : Except String String :=
  match groups with
  | [] => .ok ""
  | (sname, ts) :: rest => do
    let desc :=
      match getServer servers sname with
      | some si => si.config.description.getD (sname ++ " server")
      | none => sname ++ " server"
    let body ← toolDescLines ts
    let srest ← serverSections servers rest
    pure ("📡 " ++ desc ++ ":\n" ++ body ++ srest)

/-- The literal usage instruction appended to a non-empty catalog
description (tools.py line 76). -/
def usageInstruction : String :=
  "\n\nTo use a tool, include: [TOOL:tool_name:\x7b\"param\":\"value\"\x7d]"

/-- MCPTools.get_tools_description: the fixed text for an empty catalog,
otherwise the grouped description with the usage instruction appended
last. -/
def MCPTools.get_tools_description (servers : List (String × ServerInfo))
    (available : List ToolInfo) : Except String String :=
  if available.isEmpty then .ok "No MCP tools available."
  else
    match serverSections servers (groupByServer available) with
    | .ok body => .ok ("You have access to these MCP tools:\n\n" ++ body ++ usageInstruction)
    | .error e => .error e

/-! ## The streaming orchestrator (core/llm_client.py, chat_stream) -/

/-- One streaming chunk as the orchestrator reads it: its done flag and
its message content (none when the message carries no content key). -/
structure Chunk where
  done : Bool := false
  content : Option String := none
deriving Repr, DecidableEq

/-- What a chat_stream run emits and how many times it fell back to the
non-streaming chat call. -/
structure StreamResult where
  out : List Chunk
  chatCalls : Nat
deriving Repr, DecidableEq

/-- The chunk loop of ToolIntegratedLLMClient.chat_stream (lines
163-183): forward non-empty content chunks, swallow empty-content chunks,
and at the first done chunk fall back to one non-streaming chat call when
no content was ever received.  fallback is the text that non-streaming
call returns (none when it returns None); line 169's `if response:` is
Python truthiness, so a synthetic chunk is emitted only when that text is
neither None nor the empty string. -/
def chatStreamLoop (fallback : Option String) :
    List Chunk → Bool → StreamResult
  | [], _ => ⟨[], 0⟩
  | c :: cs, received =>
    if c.done then
      if !received then
        match fallback with
        | some r => if r ≠ "" then ⟨[⟨false, some r⟩, c], 1⟩ else ⟨[c], 1⟩
        | none => ⟨[c], 1⟩
      else ⟨[c], 0⟩
    else
      match c.content with
      | some s =>
        if s ≠ "" then
          let rest := chatStreamLoop fallback cs true
          ⟨c :: rest.out, rest.chatCalls⟩
        else chatStreamLoop fallback cs received
      | none =>
        let rest := chatStreamLoop fallback cs received
        ⟨c :: rest.out, rest.chatCalls⟩

/-- ToolIntegratedLLMClient.chat_stream: with MCP tools set the loop
above runs over the backend's chunks; with none the stream passes
through untouched and the non-streaming path is never invoked. -/
def ToolIntegratedLLMClient.chat_stream (hasTools : Bool)
    (stream : List Chunk) (fallback : Option String) : StreamResult :=
  if hasTools then chatStreamLoop fallback stream false
  else ⟨stream, 0⟩

/-! ## Inline tool markers (core/llm_client.py, _process_tool_calls_async)

The pass scans the text with the pattern matching a literal "[TOOL:",
a nonempty colon-free name, a colon, a bracket-free argument text and a
closing bracket, exactly the regex of line 273; both character classes
exclude their own terminator, so the greedy match is deterministic and a
direct scanner is an exact model. -/

/-- The literal tag opening every marker. -/
def tagChars : List Char := ['[', 'T', 'O', 'O', 'L', ':']

/-- Longest stop-free span: the pair of the maximal stop-free front
segment and the remainder. -/
def spanNot (stop : Char) : List Char → List Char × List Char
  | [] => ([], [])
  | c :: cs =>
    if c = stop then ([], c :: cs)
    else (c :: (spanNot stop cs).1, (spanNot stop cs).2)

/-- Remove a literal expected front segment. -/
def stripPref : List Char → List Char → Option (List Char)
  | [], l => some l
  | _ :: _, [] => none
  | p :: ps, c :: cs => if p = c then stripPref ps cs else none

/-- The rendered marker text [TOOL:name:args]. -/
def markerL (n a : List Char) : List Char :=
  tagChars ++ n ++ ':' :: a ++ [']']

/-- Attempt the marker regex anchored at the front of l, returning the
two capture groups and the remainder after the match. -/
def matchMarkerAt (l : List Char) : Option (List Char × List Char × List Char) :=
  match stripPref tagChars l with
  | none => none
  | some r1 =>
    let n := (spanNot ':' r1).1
    if n.isEmpty then none
    else
      match (spanNot ':' r1).2 with
      | ':' :: r3 =>
        let a := (spanNot ']' r3).1
        match (spanNot ']' r3).2 with
        | ']' :: r5 => some (n, a, r5)
        | _ => none
      | _ => none

/-- stripPref only succeeds by peeling the exact front segment. -/
theorem stripPref_some {ps : List Char} : ∀ {l r : List Char},
    stripPref ps l = some r → l = ps ++ r := by
  induction ps with
  | nil =>
    intro l r h
    simp only [stripPref] at h
    cases h
    simp
  | cons p ps ih =>
    intro l r h
    cases l with
    | nil => simp [stripPref] at h
    | cons c cs =>
      simp only [stripPref] at h
      by_cases hc : p = c
      · rw [if_pos hc] at h
        subst hc
        simpa using congrArg (p :: ·) (ih h)
      · rw [if_neg hc] at h
        cases h

/-- stripPref succeeds on the exact front segment. -/
theorem stripPref_append : ∀ (ps r : List Char), stripPref ps (ps ++ r) = some r
  | [], _ => rfl
  | p :: ps, r => by simp [stripPref, stripPref_append ps r]

/-- The span decomposes its input and its front is stop-free. -/
theorem spanNot_eq {stop : Char} : ∀ {l t r : List Char}, spanNot stop l = (t, r) →
    l = t ++ r ∧ ∀ c ∈ t, c ≠ stop := by
  intro l
  induction l with
  | nil =>
    intro t r h
    simp only [spanNot] at h
    cases h
    simp
  | cons c cs ih =>
    intro t r h
    simp only [spanNot] at h
    by_cases hc : c = stop
    · rw [if_pos hc] at h
      cases h
      simp
    · rw [if_neg hc] at h
      cases h
      obtain ⟨h1, h2⟩ := ih (t := (spanNot stop cs).1) (r := (spanNot stop cs).2) rfl
      refine ⟨by simpa using congrArg (c :: ·) h1, ?_⟩
      intro x hx
      rcases List.mem_cons.mp hx with rfl | hx2
      · exact hc
      · exact h2 x hx2

/-- The span jumps exactly over a stop-free front segment. -/
theorem spanNot_append {stop : Char} : ∀ {xs : List Char}, (∀ c ∈ xs, c ≠ stop) →
    ∀ ys, spanNot stop (xs ++ stop :: ys) = (xs, stop :: ys) := by
  intro xs
  induction xs with
  | nil =>
    intro _ ys
    simp [spanNot]
  | cons c cs ih =>
    intro h ys
    have hc : c ≠ stop := h c (by simp)
    rw [List.cons_append, spanNot, if_neg hc, ih (fun x hx => h x (by simp [hx])) ys]

/-- The marker seen as the tag plus its flattened remainder. -/
theorem markerL_append (n a rest : List Char) :
    markerL n a ++ rest = tagChars ++ (n ++ ':' :: (a ++ ']' :: rest)) := by
  simp [markerL]

/-- A successful anchored match decomposes the input exactly into a
well-formed marker and the remainder. -/
theorem matchMarkerAt_some {l n a rest : List Char}
    (h : matchMarkerAt l = some (n, a, rest)) :
    l = markerL n a ++ rest ∧ n ≠ [] ∧ (∀ c ∈ n, c ≠ ':') ∧ ∀ c ∈ a, c ≠ ']' := by
  unfold matchMarkerAt at h
  cases hst : stripPref tagChars l with
  | none => rw [hst] at h; cases h
  | some r1 =>
    rw [hst] at h
    simp only at h
    have hl : l = tagChars ++ r1 := stripPref_some hst
    rcases hsp : spanNot ':' r1 with ⟨n0, r2⟩
    rw [hsp] at h
    simp only at h
    obtain ⟨hr1, hn0⟩ := spanNot_eq hsp
    by_cases hne : n0.isEmpty
    · rw [if_pos hne] at h; cases h
    · rw [if_neg hne] at h
      split at h
      next r3 =>
        rcases hsp2 : spanNot ']' r3 with ⟨a0, r4⟩
        rw [hsp2] at h
        simp only at h
        obtain ⟨hr3, ha0⟩ := spanNot_eq hsp2
        split at h
        next r5 =>
          cases h
          refine ⟨?_, by simpa [List.isEmpty_iff] using hne, hn0, ha0⟩
          rw [markerL_append, hl, hr1, hr3]
        next => cases h
      next => cases h

/-- The anchored match recognises a well-formed marker at the front. -/
theorem matchMarkerAt_marker {n a : List Char} (rest : List Char) (hn : n ≠ [])
    (hnc : ∀ c ∈ n, c ≠ ':') (ha : ∀ c ∈ a, c ≠ ']') :
    matchMarkerAt (markerL n a ++ rest) = some (n, a, rest) := by
  unfold matchMarkerAt
  rw [markerL_append, stripPref_append]
  simp only
  have h1 : spanNot ':' (n ++ ':' :: (a ++ ']' :: rest)) = (n, ':' :: (a ++ ']' :: rest)) :=
    spanNot_append hnc _
  rw [h1]
  simp only
  rw [if_neg (by simpa [List.isEmpty_iff] using hn)]
  have h2 : spanNot ']' (a ++ ']' :: rest) = (a, ']' :: rest) := spanNot_append ha _
  rw [h2]
  simp

/-- No match can start at a character other than an opening bracket. -/
theorem matchMarkerAt_none {c : Char} (cs : List Char) (h : c ≠ '[') :
    matchMarkerAt (c :: cs) = none := by
  unfold matchMarkerAt
  have : stripPref tagChars (c :: cs) = none := by
    simp only [tagChars, stripPref]
    rw [if_neg (fun hx => h hx.symm)]
  rw [this]

/-- A successful match consumes at least the marker. -/
theorem matchMarkerAt_length {l n a rest : List Char}
    (h : matchMarkerAt l = some (n, a, rest)) : rest.length < l.length := by
  have hd := (matchMarkerAt_some h).1
  have : l.length = (markerL n a).length + rest.length := by
    rw [hd, List.length_append]
  have hm : 0 < (markerL n a).length := by
    simp [markerL, tagChars]
  omega

/-- The left-to-right, non-overlapping scan of re.findall with the
marker pattern: try an anchored match at every position, skipping over
each successful match. -/
def findallL : List Char → List (List Char × List Char)
  | [] => []
  | c :: cs =>
    match h : matchMarkerAt (c :: cs) with
    | some (n, a, rest) => (n, a) :: findallL rest
    | none => findallL cs
termination_by l => l.length
decreasing_by
  · exact matchMarkerAt_length h
  · simp

/-- The environment of the substitution pass: the json.loads oracle for
marker arguments, the (total, per the executor's conversion of faults)
mcp_tools.call_tool oracle, and whether mcp_tools is set. -/
structure MarkerEnv where
  parse : String → Except String J
  call : String → J → String
  hasTools : Bool := true

/-- Truthiness of args_str.strip(): false exactly when every character
is whitespace. -/
def pyBlank (s : List Char) : Bool := (s.dropWhile pySpace).isEmpty

/-- The replacement computed for one marker (llm_client.py lines
281-297): blank arguments parse to the empty dict, a parse fault becomes
the inline error text, otherwise the tool call's result is interpolated
after the tool name. -/
def markerReplacement (env : MarkerEnv) (n a : List Char) : String :=
  match (if pyBlank a then Except.ok (J.obj []) else env.parse (String.mk a)) with
  | .ok v =>
    if env.hasTools then "🔧 " ++ String.mk n ++ ": " ++ env.call (String.mk n) v
    else "❌ No MCP tools available for " ++ String.mk n
  | .error e => "❌ Error calling " ++ String.mk n ++ ": " ++ e

/-- ToolIntegratedLLMClient._process_tool_calls_async: find all markers
in the original text, then for each, in order, replace every occurrence
of its exact text by its computed replacement. -/
def ToolIntegratedLLMClient.process_tool_calls_async (env : MarkerEnv)
    (text : String) : String :=
  let ms := findallL text.data
  if ms.isEmpty then text
  else
    String.mk (ms.foldl (fun t p =>
      replaceAllL (markerL p.1 p.2) (markerReplacement env p.1 p.2).data t) text.data)

/-! ## Helper lemmas -/

/-- A present key makes the dict's any-test true. -/
theorem jLookup_any {fs : List (String × J)} {k : String} {v : J}
    (h : jLookup fs k = some v) : fs.any (fun p => p.1 == k) = true := by
  induction fs with
  | nil => cases h
  | cons p rest ih =>
    rcases p with ⟨k2, v2⟩
    rw [jLookup] at h
    by_cases hk : k2 = k
    · simp [hk]
    · rw [if_neg hk] at h
      simp [ih h]

/-- An absent key makes the dict's any-test false. -/
theorem jLookup_none_any {fs : List (String × J)} {k : String}
    (h : jLookup fs k = none) : fs.any (fun p => p.1 == k) = false := by
  induction fs with
  | nil => simp
  | cons p rest ih =>
    rcases p with ⟨k2, v2⟩
    rw [jLookup] at h
    by_cases hk : k2 = k
    · rw [if_pos hk] at h; cases h
    · rw [if_neg hk] at h
      simp [hk, ih h]

/-- A server found by getServer is one of the entries. -/
theorem getServer_mem {servers : List (String × ServerInfo)} {nm : String}
    {si : ServerInfo} (h : getServer servers nm = some si) : (nm, si) ∈ servers := by
  induction servers with
  | nil => cases h
  | cons p rest ih =>
    rcases p with ⟨n2, s2⟩
    rw [getServer] at h
    by_cases hn : n2 = nm
    · rw [if_pos hn] at h
      cases h
      subst hn
      simp
    · rw [if_neg hn] at h
      exact List.mem_cons_of_mem _ (ih h)

/-- The subprocess call produces a result whenever the single blocking
read returns. -/
theorem callSubprocessToolCore_isSome (jl : String → Except String J) (io : ProcIO)
    (nm : String) (args : J) (hread : io.readCall ≠ none) :
    (callSubprocessToolCore jl io nm args).isSome = true := by
  unfold callSubprocessToolCore
  cases io.writeCall with
  | error e => rfl
  | ok u =>
    simp only
    cases hrc : io.readCall with
    | none => exact absurd hrc hread
    | some line =>
      simp only
      by_cases hline : line ≠ ""
      · rw [if_pos hline]
        cases jl (pyStrip line) with
        | error e => rfl
        | ok resp => rfl
      · rw [if_neg hline]
        rfl

/-- The executor's dispatch produces a result under the same proviso for
every reachable subprocess handle. -/
theorem exec_call_tool_isSome (jl : String → Except String J) (env : HttpEnv)
    (servers : List (String × ServerInfo)) (ti : ToolInfo) (args : J)
    (hreads : ∀ p ∈ servers, ∀ io, p.2.proc = some io → io.readCall ≠ none) :
    (ToolExecutor.call_tool jl env servers ti args).isSome = true := by
  unfold ToolExecutor.call_tool
  cases hsv : getServer servers ti.server_name with
  | none => rfl
  | some si =>
    simp only
    have hmem := getServer_mem hsv
    split
    · rfl
    · rfl
    · cases hproc : si.proc with
      | none => rfl
      | some io =>
        simp only
        exact callSubprocessToolCore_isSome jl io ti.name args (hreads _ hmem io hproc)
    · rfl

/-! ## C2 -/

/-- C2: every tool-call request yields exactly one ToolCallResult — a
success string or an error-description string — even on transport
failure, I/O failure, decode failure, or unknown tool; no raised fault
escapes the call path (the hypothesis excludes only a server that never
replies, which is the separate concern of C8). -/
theorem call_tool_yields_one_result (jl : String → Except String J) (env : HttpEnv)
    (servers : List (String × ServerInfo)) (available : List ToolInfo)
    (toolName : String) (args : J)
    (hreads : ∀ p ∈ servers, ∀ io, p.2.proc = some io → io.readCall ≠ none) :
    ∃ s : String, MCPTools.call_tool jl env servers available toolName args = some s := by
  rw [← Option.isSome_iff_exists]
  unfold MCPTools.call_tool
  cases hfind : available.find? (fun t => t.name == toolName) with
  | none => rfl
  | some ti =>
    simp only
    exact exec_call_tool_isSome jl env servers ti args hreads

/-- A subprocess handle whose write raises a broken pipe. -/
def demoBrokenPipeProc : ProcIO := { writeCall := .error "broken pipe" }

/-- One configured subprocess server holding the broken handle. -/
def demoServersC2 : List (String × ServerInfo) :=
  [("a", { stype := "subprocess", config := {}, proc := some demoBrokenPipeProc })]

/-- One discovered tool owned by that server. -/
def demoToolsC2 : List ToolInfo := [{ name := "a_t", server_name := "a" }]

/-- An HTTP oracle where every request faults. -/
def demoHttpFail : HttpEnv := ⟨fun _ _ => .error "net", fun _ => .error "net"⟩

/-- A json.loads oracle that always fails to decode. -/
def demoJlFail : String → Except String J := fun _ => .error "decode"

/-- C2 witness: a concrete request over a subprocess server whose write
fails still yields exactly one error-shaped result. -/
theorem call_tool_yields_one_result_witness :
    (∀ p ∈ demoServersC2, ∀ io, p.2.proc = some io → io.readCall ≠ none) ∧
    ∃ s : String, MCPTools.call_tool demoJlFail demoHttpFail demoServersC2 demoToolsC2
      "a_t" (J.obj []) = some s := by
  have hr : ∀ p ∈ demoServersC2, ∀ io, p.2.proc = some io → io.readCall ≠ none := by
    intro p hp io hio
    rw [demoServersC2, List.mem_singleton] at hp
    subst hp
    simp only [demoBrokenPipeProc] at hio
    cases hio
    simp [demoBrokenPipeProc]
  exact ⟨hr, call_tool_yields_one_result _ _ _ _ _ _ hr⟩

/-! ## C4 -/

/-- C4 counterexample: a tools/call response whose result is the plain
top-level value 42 is not stringified to "42" by the executor; the
attribute access content-lookup on the non-mapping result raises, and the
catch-all turns it into an error string. -/
theorem subprocess_result_unwrap_counterexample :
    unwrapCallResponse (J.obj [("result", J.num 42)]) =
      "❌ Error calling subprocess tool: AttributeError" ∧
    unwrapCallResponse (J.obj [("result", J.num 42)]) ≠ "42" := by
  exact ⟨rfl, by decide⟩

/-- C4 (amended): when the response's result carries a non-empty content
list whose first element has a text field, the executor returns that
text (so content:[text:"42"] yields "42"); but a result without a
content list is never stringified: a mapping result without the content
key yields the literal "No content in result", and a plain non-mapping
result yields an error-shaped string. -/
theorem subprocess_result_unwrap :
    (∀ (fs rfs efs : List (String × J)) (rest : List J) (t : String),
       jLookup fs "result" = some (J.obj rfs) →
       jLookup rfs "content" = some (J.arr (J.obj efs :: rest)) →
       jLookup efs "text" = some (J.str t) →
       unwrapCallResponse (J.obj fs) = t) ∧
    (∀ (fs rfs : List (String × J)),
       jLookup fs "result" = some (J.obj rfs) →
       jLookup rfs "content" = none →
       unwrapCallResponse (J.obj fs) = "No content in result") ∧
    (∀ (fs : List (String × J)) (n : Int),
       jLookup fs "result" = some (J.num n) →
       unwrapCallResponse (J.obj fs) =
         "❌ Error calling subprocess tool: AttributeError") := by
  refine ⟨?_, ?_, ?_⟩
  · intro fs rfs efs rest t h1 h2 h3
    have ha : fs.any (fun p => p.1 == "result") = true := jLookup_any h1
    simp [unwrapCallResponse, pyIn, pyIndexKey, pyGet, pyIndex0, pyLen, pyStr,
      J.truthy, ha, h1, h2, h3]
  · intro fs rfs h1 h2
    have ha : fs.any (fun p => p.1 == "result") = true := jLookup_any h1
    simp [unwrapCallResponse, pyIn, pyIndexKey, pyGet, J.truthy, ha, h1, h2]
  · intro fs n h1
    have ha : fs.any (fun p => p.1 == "result") = true := jLookup_any h1
    simp [unwrapCallResponse, pyIn, pyIndexKey, pyGet, ha, h1]

/-- C4 witness: the three amended branches at concrete responses. -/
theorem subprocess_result_unwrap_witness :
    unwrapCallResponse (J.obj [("result",
        J.obj [("content", J.arr [J.obj [("text", J.str "42")]])])]) = "42" ∧
    unwrapCallResponse (J.obj [("result", J.obj [("kind", J.num 1)])]) =
      "No content in result" ∧
    unwrapCallResponse (J.obj [("result", J.num 7)]) =
      "❌ Error calling subprocess tool: AttributeError" :=
  ⟨subprocess_result_unwrap.1 _ _ _ _ _ rfl rfl rfl,
   subprocess_result_unwrap.2.1 _ _ rfl rfl,
   subprocess_result_unwrap.2.2 _ _ rfl⟩

/-! ## C6 -/

/-- C6: a tools/call response carrying an error field (a well-formed
JSON-RPC error response: no result member, error an object) never raises
past the executor — the subprocess call returns exactly one
failure-shaped string carrying the protocol error's message (or the
fixed fallback text when the error object has no message). -/
theorem tools_call_error_is_failure_result (jl : String → Except String J)
    (io : ProcIO) (nm : String) (args : J) (line : String)
    (fs efs : List (String × J))
    (hw : io.writeCall = .ok ())
    (hr : io.readCall = some line)
    (hline : line ≠ "")
    (hjl : jl (pyStrip line) = .ok (J.obj fs))
    (hres : jLookup fs "result" = none)
    (herr : jLookup fs "error" = some (J.obj efs)) :
    callSubprocessToolCore jl io nm args =
      some ("❌ Tool error: " ++
        pyStr ((jLookup efs "message").getD (J.str "Unknown error"))) ∧
    ∀ m : String, jLookup efs "message" = some (J.str m) →
      callSubprocessToolCore jl io nm args = some ("❌ Tool error: " ++ m) := by
  have hmain : callSubprocessToolCore jl io nm args =
      some ("❌ Tool error: " ++
        pyStr ((jLookup efs "message").getD (J.str "Unknown error"))) := by
    have hres2 : fs.any (fun p => p.1 == "result") = false := jLookup_none_any hres
    have herr2 : fs.any (fun p => p.1 == "error") = true := jLookup_any herr
    unfold callSubprocessToolCore
    rw [hw]
    simp only
    rw [hr]
    simp only
    rw [if_pos hline, hjl]
    simp [unwrapCallResponse, pyIn, pyIndexKey, pyGet, hres2, herr2, herr]
  refine ⟨hmain, ?_⟩
  intro m hm
  rw [hmain, hm]
  rfl

/-- A scripted subprocess reply carrying a protocol error. -/
def demoErrIO : ProcIO := { readCall := some "ERRLINE" }

/-- A json.loads oracle decoding that reply into an error response. -/
def demoJlErr : String → Except String J := fun s =>
  if s = "ERRLINE" then
    .ok (J.obj [("error", J.obj [("message", J.str "boom")])])
  else .error "decode"

/-- C6 witness: the scripted error response yields the failure result
carrying the message boom. -/
theorem tools_call_error_is_failure_result_witness :
    callSubprocessToolCore demoJlErr demoErrIO "a_t" (J.obj []) =
      some ("❌ Tool error: boom") :=
  (tools_call_error_is_failure_result demoJlErr demoErrIO "a_t" (J.obj [])
    "ERRLINE" [("error", J.obj [("message", J.str "boom")])]
    [("message", J.str "boom")] rfl rfl (by decide) rfl rfl rfl).2 "boom" rfl

/-! ## C10 -/

/-- Boolean suffix test on strings. -/
def strEndsWithB (s t : String) : Bool :=
  s.data.drop (s.data.length - t.data.length) == t.data

/-- Appending t always leaves a string ending in t. -/
theorem strEndsWithB_append (p t : String) : strEndsWithB (p ++ t) t = true := by
  have hd : (p ++ t).data = p.data ++ t.data := rfl
  simp [strEndsWithB, hd, List.drop_left]

/-- C10: with an empty discovered-tool list the capability description is
exactly "No MCP tools available." and does not end with the usage
instruction; with at least one tool every successfully rendered
description does end with that instruction. -/
theorem empty_catalog_description :
    (∀ servers, MCPTools.get_tools_description servers [] = .ok "No MCP tools available.") ∧
    strEndsWithB "No MCP tools available." usageInstruction = false ∧
    (∀ servers tools s, tools ≠ [] →
      MCPTools.get_tools_description servers tools = .ok s →
      strEndsWithB s usageInstruction = true) := by
  refine ⟨fun _ => rfl, by decide, ?_⟩
  intro servers tools s hne hs
  unfold MCPTools.get_tools_description at hs
  rw [if_neg (by simp [List.isEmpty_iff, hne])] at hs
  cases hsec : serverSections servers (groupByServer tools) with
  | error e => rw [hsec] at hs; cases hs
  | ok body =>
    rw [hsec] at hs
    simp only at hs
    cases hs
    rw [show "You have access to these MCP tools:\n\n" ++ body ++ usageInstruction =
      ("You have access to these MCP tools:\n\n" ++ body) ++ usageInstruction from by
        simp [String.append_assoc]]
    exact strEndsWithB_append _ _

/-- C10 witness: a one-tool catalog renders a description ending in the
usage instruction. -/
theorem empty_catalog_description_witness :
    ([({ name := "local_server_add", server_name := "local_server" } : ToolInfo)] ≠ []) ∧
    MCPTools.get_tools_description []
      [{ name := "local_server_add", server_name := "local_server" }] =
      .ok ("You have access to these MCP tools:\n\n📡 local_server server:\n  - local_server_add: \n" ++ usageInstruction) ∧
    strEndsWithB ("You have access to these MCP tools:\n\n📡 local_server server:\n  - local_server_add: \n" ++ usageInstruction) usageInstruction = true := by
  refine ⟨by simp, by rfl, ?_⟩
  exact empty_catalog_description.2.2 [] [{ name := "local_server_add", server_name := "local_server" }]
    _ (by simp) (by rfl)

/-! ## C1 -/

/-- What the fallback branch emits before the terminal chunk: one
synthetic chunk when the non-streaming call returned truthy text,
nothing when it returned None or the empty string. -/
def fallbackChunks : Option String → List Chunk
  | some r => if r ≠ "" then [⟨false, some r⟩] else []
  | none => []

/-- Unfolding of the chunk loop at a cons. -/
theorem chatStreamLoop_cons (fb : Option String) (c : Chunk) (cs : List Chunk)
    (received : Bool) :
    chatStreamLoop fb (c :: cs) received =
      (if c.done then
        if !received then
          match fb with
          | some r => if r ≠ "" then ⟨[⟨false, some r⟩, c], 1⟩ else ⟨[c], 1⟩
          | none => ⟨[c], 1⟩
        else ⟨[c], 0⟩
      else
        match c.content with
        | some s =>
          if s ≠ "" then
            let rest := chatStreamLoop fb cs true
            ⟨c :: rest.out, rest.chatCalls⟩
          else chatStreamLoop fb cs received
        | none =>
          let rest := chatStreamLoop fb cs received
          ⟨c :: rest.out, rest.chatCalls⟩) := rfl

/-- The streaming loop over a prefix of contentless chunks followed by
the terminal chunk: the contentless-but-keyed chunks pass through, the
empty-content ones are swallowed, then the fallback call's emission and
the terminal chunk follow, with exactly one fallback call made. -/
theorem chatStreamLoop_pre (fb : Option String) : ∀ (pre rest : List Chunk) (d : Chunk),
    d.done = true →
    (∀ c ∈ pre, c.done = false ∧ (c.content = none ∨ c.content = some "")) →
    chatStreamLoop fb (pre ++ d :: rest) false =
      ⟨(pre.filter (fun c => c.content == none)) ++ fallbackChunks fb ++ [d], 1⟩ := by
  intro pre
  induction pre with
  | nil =>
    intro rest d hd _
    rw [List.nil_append, chatStreamLoop_cons, if_pos hd]
    cases fb with
    | none => simp [fallbackChunks]
    | some r =>
      by_cases hr : r ≠ ""
      · simp [fallbackChunks, hr]
      · simp [fallbackChunks, hr]
  | cons c cs ih =>
    intro rest d hd hpre
    obtain ⟨hcd, hcc⟩ := hpre c (by simp)
    have hrest : ∀ x ∈ cs, x.done = false ∧ (x.content = none ∨ x.content = some "") :=
      fun x hx => hpre x (by simp [hx])
    rw [List.cons_append, chatStreamLoop_cons]
    rw [if_neg (by simp [hcd])]
    rcases hcc with hnone | hempty
    · rw [hnone]
      simp only
      rw [ih rest d hd hrest]
      simp [List.filter_cons, hnone]
    · rw [hempty]
      simp only [ne_eq, not_true_eq_false, if_neg]
      rw [ih rest d hd hrest]
      simp [List.filter_cons, hempty]

/-- C1 counterexample: when the non-streaming fallback call returns the
empty string — falsy at llm_client.py line 169 — the orchestrator emits
no synthetic chunk at all, only the terminal chunk, so the output the
original claim predicts (the resulting text as a synthetic chunk, then
the terminal chunk) is not produced. -/
theorem stream_empty_fallback_counterexample :
    ToolIntegratedLLMClient.chat_stream true [⟨true, none⟩] (some "") =
      ⟨[⟨true, none⟩], 1⟩ ∧
    ToolIntegratedLLMClient.chat_stream true [⟨true, none⟩] (some "") ≠
      ⟨[⟨false, some ""⟩, ⟨true, none⟩], 1⟩ := by
  exact ⟨by decide, by decide⟩

/-- C1 (amended): for a streaming chat request with tools, when no
non-empty content chunk arrives before the terminal chunk, the
orchestrator makes exactly one subsequent non-streaming chat call; when
that call returns non-empty text it emits it as one synthetic chunk and
then the terminal chunk, and when it returns the empty string or None it
emits only the terminal chunk (chunks after the terminal one are never
consumed, and the fallback call is made exactly once in every case). -/
theorem stream_no_content_fallback (pre rest : List Chunk) (d : Chunk) (r : String)
    (hd : d.done = true) (hr : r ≠ "")
    (hpre : ∀ c ∈ pre, c.done = false ∧ (c.content = none ∨ c.content = some "")) :
    (ToolIntegratedLLMClient.chat_stream true (pre ++ d :: rest) (some r) =
      ⟨(pre.filter (fun c => c.content == none)) ++ [⟨false, some r⟩, d], 1⟩) ∧
    (ToolIntegratedLLMClient.chat_stream true (pre ++ d :: rest) (some "") =
      ⟨(pre.filter (fun c => c.content == none)) ++ [d], 1⟩) ∧
    (ToolIntegratedLLMClient.chat_stream true (pre ++ d :: rest) none =
      ⟨(pre.filter (fun c => c.content == none)) ++ [d], 1⟩) := by
  refine ⟨?_, ?_, ?_⟩ <;>
    (unfold ToolIntegratedLLMClient.chat_stream; rw [if_pos rfl])
  · rw [chatStreamLoop_pre (some r) pre rest d hd hpre]
    simp [fallbackChunks, hr]
  · rw [chatStreamLoop_pre (some "") pre rest d hd hpre]
    simp [fallbackChunks]
  · rw [chatStreamLoop_pre none pre rest d hd hpre]
    simp [fallbackChunks]

/-- C1 witness: a stream of one empty-content chunk, one contentless
chunk and the terminal chunk, with the fallback returning hello. -/
theorem stream_no_content_fallback_witness :
    ToolIntegratedLLMClient.chat_stream true
      ([⟨false, some ""⟩, ⟨false, none⟩] ++ ⟨true, none⟩ :: [⟨false, some "late"⟩])
      (some "hello") =
      ⟨[⟨false, none⟩, ⟨false, some "hello"⟩, ⟨true, none⟩], 1⟩ := by
  rw [(stream_no_content_fallback _ _ _ _ rfl (by decide) (by decide)).1]
  decide

/-! ## C3 -/

/-- A scripted handshake whose tools/list response lists one tool foo. -/
def demoFooIO : ProcIO :=
  { readInit := some "INITOK", readToolsList := some "TOOLSFOO" }

/-- The json.loads oracle for the scripted handshake lines. -/
def demoJlFoo : String → Except String J := fun s =>
  if s = "INITOK" then .ok (J.obj [("result", J.obj [])])
  else if s = "TOOLSFOO" then
    .ok (J.obj [("result", J.obj [("tools", J.arr [J.obj [("name", J.str "foo")]])])])
  else .error "decode"

/-- A spawn oracle where every subprocess spawn succeeds with the foo
handshake. -/
def demoSpawnFoo : SpawnEnv :=
  { spawn := fun _ _ => .ok demoFooIO, findModule := fun _ => none }

/-- Two configured subprocess servers named a and b. -/
def demoCfgAB : List (String × ServerConfig) :=
  [("a", { stype := some "subprocess" }), ("b", { stype := some "subprocess" })]

/-- C3: discovery does not namespace by the owning server's configured
name — servers a and b each exposing a tool foo both enter the catalog
under the hard-coded name local_server_foo, colliding, instead of the
distinct a_foo and b_foo the claim requires. -/
theorem namespacing_uses_hardcoded_prefix :
    (ToolDiscovery.discover_all_tools demoJlFoo demoHttpFail
      (ServerManager.initialize_servers demoSpawnFoo demoCfgAB)).map
        (fun ts => ts.map (fun t => t.name)) =
      some ["local_server_foo", "local_server_foo"] ∧
    (["local_server_foo", "local_server_foo"] : List String) ≠ ["a_foo", "b_foo"] :=
  ⟨rfl, by decide⟩

/-! ## C7 -/

/-- Initialization keeps exactly the servers whose per-server setup
succeeds, in configuration order. -/
theorem initialize_servers_filterMap (env : SpawnEnv)
    (cfg : List (String × ServerConfig)) :
    ServerManager.initialize_servers env cfg =
      cfg.filterMap (fun p =>
        (ServerManager.initialize_server env p.1 p.2).map (fun si => (p.1, si))) := by
  induction cfg with
  | nil => rfl
  | cons p rest ih =>
    rcases p with ⟨n, c⟩
    rw [ServerManager.initialize_servers]
    cases h : ServerManager.initialize_server env n c with
    | none => simp [List.filterMap_cons, h, ih]
    | some si => simp [List.filterMap_cons, h, ih]

/-- When every per-server discovery terminates, the catalog is the
concatenation of the per-server tool lists. -/
theorem discover_all_tools_join (jl : String → Except String J) (http : HttpEnv) :
    ∀ (servers : List (String × ServerInfo)),
    (∀ p ∈ servers, (discoverServerTools jl http p.2).isSome = true) →
    ToolDiscovery.discover_all_tools jl http servers =
      some ((servers.map (fun p => (discoverServerTools jl http p.2).getD [])).flatten) := by
  intro servers
  induction servers with
  | nil => intro _; rfl
  | cons p rest ih =>
    intro hterm
    have hp := hterm p (by simp)
    obtain ⟨ts, hts⟩ := Option.isSome_iff_exists.mp hp
    rw [ToolDiscovery.discover_all_tools]
    rw [hts, ih (fun x hx => hterm x (by simp [hx]))]
    simp [hts]

/-- C7: one server's spawn failure does not prevent initialization and
discovery of the remaining servers — the server dict is exactly the
successfully initialized configurations in order, and the catalog is
exactly the concatenation of the surviving servers' discovered tools. -/
theorem partial_failure_catalog (env : SpawnEnv) (jl : String → Except String J)
    (http : HttpEnv) (cfg : List (String × ServerConfig))
    (hterm : ∀ p ∈ ServerManager.initialize_servers env cfg,
      (discoverServerTools jl http p.2).isSome = true) :
    ServerManager.initialize_servers env cfg =
      cfg.filterMap (fun p =>
        (ServerManager.initialize_server env p.1 p.2).map (fun si => (p.1, si))) ∧
    ToolDiscovery.discover_all_tools jl http (ServerManager.initialize_servers env cfg) =
      some (((ServerManager.initialize_servers env cfg).map
        (fun p => (discoverServerTools jl http p.2).getD [])).flatten) :=
  ⟨initialize_servers_filterMap env cfg,
   discover_all_tools_join jl http _ hterm⟩

/-- A spawn oracle failing for the server named bad and succeeding with
the foo handshake otherwise. -/
def demoSpawnBad : SpawnEnv :=
  { spawn := fun n _ => if n = "bad" then .error "ENOENT" else .ok demoFooIO
    findModule := fun _ => none }

/-- One misconfigured server followed by one good server. -/
def demoCfgBadGood : List (String × ServerConfig) :=
  [("bad", { stype := some "subprocess" }), ("good", { stype := some "subprocess" })]

/-- The surviving server entry of the bad-and-good scenario. -/
def demoGoodSI : ServerInfo :=
  { stype := "subprocess", config := { stype := some "subprocess" }, proc := some demoFooIO }

/-- The tool the good server contributes. -/
def demoFooTool : ToolInfo :=
  { name := "local_server_foo", server_name := "local_server",
    description := J.str "Tool description", parameters := J.obj [] }

/-- C7 witness: with one bad and one good server the catalog holds
exactly the good server's tool. -/
theorem partial_failure_catalog_witness :
    ToolDiscovery.discover_all_tools demoJlFoo demoHttpFail
      (ServerManager.initialize_servers demoSpawnBad demoCfgBadGood) =
      some [demoFooTool] := by
  have h := (partial_failure_catalog demoSpawnBad demoJlFoo demoHttpFail demoCfgBadGood
    (by
      intro p hp
      have hini : ServerManager.initialize_servers demoSpawnBad demoCfgBadGood =
          [("good", demoGoodSI)] := rfl
      rw [hini, List.mem_singleton] at hp
      rw [hp]
      rfl)).2
  rw [h]
  rfl

/-! ## C8 -/

/-- A handle whose server never answers the tools/call read. -/
def demoHangCallIO : ProcIO := { readCall := none }

/-- A handle whose server never answers the initialize read. -/
def demoHangInitIO : ProcIO := { readInit := none }

/-- C8: no blocking read is bounded by any timeout — with a tool server
that never replies, the executor's subprocess call and the discovery
handshake never produce any result at all (modelled by none), instead of
degrading to a failure result after a configurable duration. -/
theorem no_timeout_bounds_reads :
    callSubprocessToolCore demoJlFail demoHangCallIO "a_t" (J.obj []) = none ∧
    discoverSubprocessTools demoJlFail demoHangInitIO = none :=
  ⟨rfl, rfl⟩

/-! ## Structure of marker replacement (towards C5 and C9)

The key alignment facts: a marker's text opens with its only opening
bracket and closes with its only closing bracket (under the
well-formedness conditions below), so distinct markers cannot overlap,
and a marker cannot begin inside bracket-free literal text. -/

/-- A word of the form [body] whose body is bracket-free. -/
def BracketShaped (m : List Char) : Prop :=
  ∃ body, m = '[' :: body ++ [']'] ∧ ']' ∉ body ∧ '[' ∉ body

/-- Bodies of bracket-shaped words are determined by any prefix
relation: the closing bracket positions must agree. -/
theorem bracket_body_agree : ∀ {pb qb t : List Char}, ']' ∉ pb → ']' ∉ qb →
    pb ++ [']'] <+: qb ++ ']' :: t → pb = qb := by
  intro pb
  induction pb with
  | nil =>
    intro qb t _ hqb hpre
    cases qb with
    | nil => rfl
    | cons x qb2 =>
      rw [List.nil_append, List.cons_append, List.cons_prefix_cons] at hpre
      exact absurd (hpre.1 ▸ List.mem_cons_self x qb2) hqb
  | cons y pb2 ih =>
    intro qb t hpb hqb hpre
    cases qb with
    | nil =>
      rw [List.cons_append, List.nil_append, List.cons_prefix_cons] at hpre
      exact absurd (hpre.1 ▸ List.mem_cons_self y pb2) hpb
    | cons x qb2 =>
      rw [List.cons_append, List.cons_append, List.cons_prefix_cons] at hpre
      have := ih (fun hc => hpb (List.mem_cons_of_mem _ hc))
        (fun hc => hqb (List.mem_cons_of_mem _ hc)) hpre.2
      rw [hpre.1, this]

/-- A bracket-shaped word that is a prefix of another bracket-shaped
word followed by anything must be that word itself. -/
theorem bracketShaped_prefix_eq {p q t : List Char}
    (hp : BracketShaped p) (hq : BracketShaped q) (hpre : p <+: q ++ t) : p = q := by
  obtain ⟨pb, rfl, hpb, _⟩ := hp
  obtain ⟨qb, rfl, hqb, _⟩ := hq
  simp only [List.cons_append] at hpre
  rw [List.cons_prefix_cons] at hpre
  have hb : pb ++ [']'] <+: qb ++ ']' :: t := by
    have h2 := hpre.2
    simpa [List.append_assoc] using h2
  rw [bracket_body_agree hpb hqb hb]

/-- A well-formed marker is bracket-shaped. -/
theorem markerL_bracketShaped {n a : List Char}
    (hn1 : ']' ∉ n) (hn2 : '[' ∉ n) (ha1 : ']' ∉ a) (ha2 : '[' ∉ a) :
    BracketShaped (markerL n a) := by
  refine ⟨['T', 'O', 'O', 'L', ':'] ++ n ++ ':' :: a, ?_, ?_, ?_⟩
  · simp [markerL, tagChars]
  · intro hmem
    rcases List.mem_append.mp hmem with h | h
    · rcases List.mem_append.mp h with h2 | h2
      · simp at h2
      · exact hn1 h2
    · rcases List.mem_cons.mp h with h2 | h2
      · simp at h2
      · exact ha1 h2
  · intro hmem
    rcases List.mem_append.mp hmem with h | h
    · rcases List.mem_append.mp h with h2 | h2
      · simp at h2
      · exact hn2 h2
    · rcases List.mem_cons.mp h with h2 | h2
      · simp at h2
      · exact ha2 h2

/-- Well-formedness of one marker's capture groups. -/
def MarkWF (m : List Char × List Char) : Prop :=
  m.1 ≠ [] ∧ (∀ c ∈ m.1, c ≠ ':') ∧ ']' ∉ m.1 ∧ '[' ∉ m.1 ∧ ']' ∉ m.2 ∧ '[' ∉ m.2

instance (m : List Char × List Char) : Decidable (MarkWF m) := by
  unfold MarkWF
  infer_instance

/-- Well-formed markers with equal texts have equal capture groups. -/
theorem markerL_inj {n a n2 a2 : List Char} (h1 : MarkWF (n, a)) (h2 : MarkWF (n2, a2))
    (h : markerL n a = markerL n2 a2) : n = n2 ∧ a = a2 := by
  have e1 : matchMarkerAt (markerL n a ++ []) = some (n, a, []) :=
    matchMarkerAt_marker [] h1.1 h1.2.1 (fun c hc hx => h1.2.2.2.2.1 (hx ▸ hc))
  have e2 : matchMarkerAt (markerL n2 a2 ++ []) = some (n2, a2, []) :=
    matchMarkerAt_marker [] h2.1 h2.2.1 (fun c hc hx => h2.2.2.2.2.1 (hx ▸ hc))
  rw [h] at e1
  rw [e2] at e1
  have h3 := Option.some.inj e1
  exact ⟨(congrArg (fun p => p.1) h3).symm, (congrArg (fun p => p.2.1) h3).symm⟩

/-- Replacement scanning steps through bracket-free text untouched when
the pattern opens with a bracket. -/
theorem replaceAllL_bracket_free (pat rep : List Char) (hpat : ∃ pt, pat = '[' :: pt) :
    ∀ {s : List Char}, '[' ∉ s →
    ∀ t, replaceAllL pat rep (s ++ t) = s ++ replaceAllL pat rep t := by
  obtain ⟨pt, rfl⟩ := hpat
  intro s
  induction s with
  | nil => intro _ t; simp
  | cons c cs ih =>
    intro hs t
    have hc : c ≠ '[' := fun h => hs (h ▸ List.mem_cons_self c cs)
    rw [List.cons_append, replaceAllL]
    rw [dif_neg ?_]
    · rw [ih (fun h => hs (List.mem_cons_of_mem _ h)) t]
      rfl
    · rintro ⟨-, hpre⟩
      rw [List.isPrefixOf_iff_prefix, List.cons_prefix_cons] at hpre
      exact hc hpre.1.symm

/-- Replacement consumes an exact front occurrence of the pattern. -/
theorem replaceAllL_pat_front {pat : List Char} (rep : List Char) (hne : pat ≠ [])
    (t : List Char) : replaceAllL pat rep (pat ++ t) = rep ++ replaceAllL pat rep t := by
  obtain ⟨c, cs, rfl⟩ : ∃ c cs, pat = c :: cs := by
    cases pat with
    | nil => exact absurd rfl hne
    | cons c cs => exact ⟨c, cs, rfl⟩
  rw [List.cons_append, replaceAllL]
  rw [dif_pos ⟨by simp, by
    rw [List.isPrefixOf_iff_prefix]
    exact ⟨t, by simp⟩⟩]
  have hdrop : (c :: (cs ++ t)).drop (c :: cs).length = t := by
    simp [List.drop_succ_cons, List.drop_left]
  rw [hdrop]

/-- Replacement passes over a well-formed marker different from its
pattern. -/
theorem replaceAllL_other_marker {pat rep q t : List Char}
    (hpat : BracketShaped pat) (hq : BracketShaped q) (hne : pat ≠ q) :
    replaceAllL pat rep (q ++ t) = q ++ replaceAllL pat rep t := by
  obtain ⟨qb, hqd, hqb1, hqb2⟩ := hq
  subst hqd
  have hshape : (('[' :: qb) ++ [']']) ++ t = '[' :: ((qb ++ [']']) ++ t) := by
    simp
  rw [show ('[' : Char) :: qb ++ [']'] ++ t = (('[' : Char) :: qb ++ [']']) ++ t from rfl]
  rw [hshape, replaceAllL]
  rw [dif_neg ?_]
  · have hs : '[' ∉ qb ++ [']'] := by
      intro hx
      rcases List.mem_append.mp hx with hx2 | hx2
      · exact hqb2 hx2
      · simp at hx2
    have hstep := replaceAllL_bracket_free pat rep
      (by obtain ⟨pb, hpd, -, -⟩ := hpat; exact ⟨pb ++ [']'], hpd⟩) hs t
    calc ('[' : Char) :: replaceAllL pat rep ((qb ++ [']']) ++ t)
        = '[' :: ((qb ++ [']']) ++ replaceAllL pat rep t) := by rw [hstep]
      _ = ('[' :: qb ++ [']']) ++ replaceAllL pat rep t := by simp
  · rintro ⟨-, hpre⟩
    rw [List.isPrefixOf_iff_prefix] at hpre
    rw [← hshape] at hpre
    exact hne (bracketShaped_prefix_eq (t := t) hpat ⟨qb, rfl, hqb1, hqb2⟩ hpre)

/-- A piece of a text: bracket-free literal prose, or one marker. -/
inductive Piece where
  | lit (s : List Char) : Piece
  | mark (n a : List Char) : Piece

/-- The rendered text of one piece. -/
def Piece.render : Piece → List Char
  | .lit s => s
  | .mark n a => markerL n a

/-- The rendered text of a piece sequence. -/
def renderPieces (ps : List Piece) : List Char := (ps.map Piece.render).flatten

/-- Well-formedness: literals carry no opening bracket; markers are
well-formed captures. -/
def PieceWF : Piece → Prop
  | .lit s => '[' ∉ s
  | .mark n a => MarkWF (n, a)

/-- One replacement step on the piece sequence: marker slots whose text
equals the pattern become the replacement literal. -/
def replacePiece (pat rep : List Char) : Piece → Piece
  | .lit s => .lit s
  | .mark n a => if markerL n a = pat then .lit rep else .mark n a

/-- Rendering distributes over cons. -/
theorem renderPieces_cons (p : Piece) (ps : List Piece) :
    renderPieces (p :: ps) = p.render ++ renderPieces ps := by
  simp [renderPieces]

/-- One replaceAllL pass over a rendered well-formed piece sequence acts
exactly slotwise: it rewrites precisely the marker slots whose text is
the pattern. -/
theorem replaceAllL_pieces {pat rep : List Char} (hpat : BracketShaped pat)
    (hrep : '[' ∉ rep) : ∀ (ps : List Piece), (∀ p ∈ ps, PieceWF p) →
    replaceAllL pat rep (renderPieces ps) =
      renderPieces (ps.map (replacePiece pat rep)) := by
  intro ps
  induction ps with
  | nil =>
    intro _
    simp [renderPieces, replaceAllL]
  | cons p rest ih =>
    intro hwf
    have hp := hwf p (List.mem_cons_self p rest)
    have hrest := fun x hx => hwf x (List.mem_cons_of_mem _ hx)
    rw [renderPieces_cons, List.map_cons, renderPieces_cons]
    cases p with
    | lit s =>
      simp only [Piece.render, replacePiece]
      rw [replaceAllL_bracket_free pat rep ?_ hp _, ih hrest]
      · obtain ⟨pb, hpd, -, -⟩ := hpat
        exact ⟨pb ++ [']'], hpd⟩
    | mark n a =>
      have hne : pat ≠ [] := by
        obtain ⟨pb, hpd, -, -⟩ := hpat
        simp [hpd]
      by_cases heq : markerL n a = pat
      · rw [Piece.render, heq, replaceAllL_pat_front rep hne _, ih hrest]
        simp [replacePiece, heq, Piece.render]
      · rw [Piece.render,
          replaceAllL_other_marker hpat
            (markerL_bracketShaped hp.2.2.1 hp.2.2.2.1 hp.2.2.2.2.1 hp.2.2.2.2.2)
            (fun hx => heq hx.symm),
          ih hrest]
        simp [replacePiece, heq, Piece.render]

/-- Slotwise replacement preserves well-formedness. -/
theorem replacePiece_wf {pat rep : List Char} (hrep : '[' ∉ rep) :
    ∀ {p : Piece}, PieceWF p → PieceWF (replacePiece pat rep p) := by
  intro p hp
  cases p with
  | lit s => exact hp
  | mark n a =>
    by_cases heq : markerL n a = pat
    · simpa [replacePiece, heq, PieceWF] using hrep
    · simpa [replacePiece, heq, PieceWF] using hp

/-- The cumulative effect of the whole substitution pass on a marker
slot: it becomes its replacement exactly when its capture pair is among
the processed markers. -/
def replaceIfIn (env : MarkerEnv) (ms : List (List Char × List Char)) : Piece → Piece
  | .lit s => .lit s
  | .mark n a =>
    if (n, a) ∈ ms then .lit (markerReplacement env n a).data else .mark n a

/-- The substitution fold over a marker list acts slotwise on a rendered
well-formed piece sequence. -/
theorem foldl_marker_replace (env : MarkerEnv) :
    ∀ (ms : List (List Char × List Char)) (ps : List Piece),
    (∀ p ∈ ps, PieceWF p) →
    (∀ m ∈ ms, MarkWF m) →
    (∀ m ∈ ms, '[' ∉ (markerReplacement env m.1 m.2).data) →
    ms.foldl (fun t m =>
        replaceAllL (markerL m.1 m.2) (markerReplacement env m.1 m.2).data t)
      (renderPieces ps) = renderPieces (ps.map (replaceIfIn env ms)) := by
  intro ms
  induction ms with
  | nil =>
    intro ps hwf _ _
    rw [List.foldl_nil]
    congr 1
    have hid : ∀ p : Piece, replaceIfIn env [] p = p := by
      intro p
      cases p with
      | lit s => rfl
      | mark n a => simp [replaceIfIn]
    calc ps = ps.map id := by rw [List.map_id]
      _ = ps.map (replaceIfIn env []) := by
          exact List.map_congr_left (fun p _ => (hid p).symm)
  | cons m ms2 ih =>
    intro ps hwf hms hrep
    rw [List.foldl_cons]
    have hm := hms m (List.mem_cons_self m ms2)
    have hrepm := hrep m (List.mem_cons_self m ms2)
    have hbr : BracketShaped (markerL m.1 m.2) :=
      markerL_bracketShaped hm.2.2.1 hm.2.2.2.1 hm.2.2.2.2.1 hm.2.2.2.2.2
    rw [replaceAllL_pieces hbr hrepm ps hwf]
    rw [ih (ps.map (replacePiece (markerL m.1 m.2) (markerReplacement env m.1 m.2).data))
      (by
        intro x hx
        obtain ⟨p0, hp0, rfl⟩ := List.mem_map.mp hx
        exact replacePiece_wf hrepm (hwf p0 hp0))
      (fun x hx => hms x (List.mem_cons_of_mem _ hx))
      (fun x hx => hrep x (List.mem_cons_of_mem _ hx))]
    rw [List.map_map]
    apply congrArg
    apply List.map_congr_left
    intro p hp
    cases p with
    | lit s => rfl
    | mark n a =>
      have hpw : MarkWF (n, a) := hwf _ hp
      simp only [Function.comp_apply, replacePiece]
      by_cases heq : markerL n a = markerL m.1 m.2
      · obtain ⟨hn, ha⟩ := markerL_inj hpw hm heq
        have hpair : (n, a) = m := Prod.ext_iff.mpr ⟨hn, ha⟩
        rw [if_pos heq]
        simp only [replaceIfIn]
        rw [if_pos (List.mem_cons.mpr (Or.inl hpair))]
        rw [hn, ha]
      · have hnm : (n, a) ≠ m := by
          intro hcontr
          exact heq (by rw [show n = m.1 from congrArg Prod.fst hcontr,
            show a = m.2 from congrArg Prod.snd hcontr])
        rw [if_neg heq]
        simp only [replaceIfIn]
        by_cases hmem : (n, a) ∈ ms2
        · rw [if_pos hmem, if_pos (List.mem_cons_of_mem m hmem)]
        · rw [if_neg hmem, if_neg (fun hx => by
            rcases List.mem_cons.mp hx with h | h
            · exact hnm h
            · exact hmem h)]

/-- Unfolding: the empty scan. -/
theorem findallL_nil : findallL [] = [] := by
  rw [findallL]

/-- Unfolding: a successful anchored match at the head of the scan. -/
theorem findallL_cons_some {c : Char} {cs n a rest : List Char}
    (h : matchMarkerAt (c :: cs) = some (n, a, rest)) :
    findallL (c :: cs) = (n, a) :: findallL rest := by
  rw [findallL]
  split
  next n2 a2 rest2 hm2 =>
    rw [hm2] at h
    have h3 := Option.some.inj h
    have e1 : n2 = n := congrArg (fun p => p.1) h3
    have e2 : a2 = a := congrArg (fun p => p.2.1) h3
    have e3 : rest2 = rest := congrArg (fun p => p.2.2) h3
    rw [e1, e2, e3]
  next hm2 =>
    rw [hm2] at h
    cases h

/-- Unfolding: no match at the head of the scan. -/
theorem findallL_cons_none {c : Char} {cs : List Char}
    (h : matchMarkerAt (c :: cs) = none) :
    findallL (c :: cs) = findallL cs := by
  rw [findallL]
  split
  next n2 a2 rest2 hm2 =>
    rw [hm2] at h
    cases h
  next hm2 => rfl

/-- Scanning skips bracket-free front text. -/
theorem findallL_bracket_free_front : ∀ {s : List Char}, '[' ∉ s →
    ∀ t, findallL (s ++ t) = findallL t := by
  intro s
  induction s with
  | nil => intro _ t; rw [List.nil_append]
  | cons c cs ih =>
    intro hs t
    have hc : c ≠ '[' := fun h => hs (h ▸ List.mem_cons_self c cs)
    rw [List.cons_append, findallL_cons_none (matchMarkerAt_none _ hc)]
    exact ih (fun h => hs (List.mem_cons_of_mem _ h)) t

/-- Scanning takes a well-formed front marker whole and continues after
it. -/
theorem findallL_marker {n a : List Char} (rest : List Char) (hn : n ≠ [])
    (hnc : ∀ c ∈ n, c ≠ ':') (ha : ∀ c ∈ a, c ≠ ']') :
    findallL (markerL n a ++ rest) = (n, a) :: findallL rest := by
  have hm := matchMarkerAt_marker rest hn hnc ha
  obtain ⟨cs, hcs⟩ : ∃ cs, markerL n a ++ rest = '[' :: cs := by
    refine ⟨'T' :: 'O' :: 'O' :: 'L' :: ':' :: (n ++ ':' :: (a ++ ']' :: rest)), ?_⟩
    simp [markerL, tagChars]
  rw [hcs] at hm ⊢
  exact findallL_cons_some hm

/-- The marker capture pairs of a piece sequence, in order. -/
def pieceMarks (ps : List Piece) : List (List Char × List Char) :=
  ps.filterMap (fun p => match p with | .mark n a => some (n, a) | .lit _ => none)

/-- Scanning a rendered well-formed piece sequence finds exactly its
markers in order. -/
theorem findallL_renderPieces : ∀ (ps : List Piece), (∀ p ∈ ps, PieceWF p) →
    findallL (renderPieces ps) = pieceMarks ps := by
  intro ps
  induction ps with
  | nil =>
    intro _
    rw [show renderPieces [] = [] from rfl, findallL_nil]
    rfl
  | cons p rest ih =>
    intro hwf
    have hp := hwf p (List.mem_cons_self p rest)
    have hrest := fun x hx => hwf x (List.mem_cons_of_mem _ hx)
    rw [renderPieces_cons]
    cases p with
    | lit s =>
      rw [Piece.render, findallL_bracket_free_front hp _, ih hrest]
      simp [pieceMarks]
    | mark n a =>
      rw [Piece.render,
        findallL_marker _ hp.1 hp.2.1 (fun c hc hx => hp.2.2.2.2.1 (hx ▸ hc)),
        ih hrest]
      simp [pieceMarks]

/-- Every capture pair the scan reports comes from a well-formed marker
occurring inside the text. -/
theorem findallL_sound : ∀ (l n a : List Char), (n, a) ∈ findallL l →
    n ≠ [] ∧ (∀ c ∈ n, c ≠ ':') ∧ (∀ c ∈ a, c ≠ ']') ∧ markerL n a <:+: l := by
  intro l
  induction l using findallL.induct with
  | case1 =>
    intro n a h
    rw [findallL_nil] at h
    cases h
  | case2 c cs n0 a0 rest hmatch ih =>
    intro n a h
    rw [findallL_cons_some hmatch] at h
    obtain ⟨hd, hn0, hnc0, hac0⟩ := matchMarkerAt_some hmatch
    rcases List.mem_cons.mp h with heq | hmem
    · have e1 : n = n0 := congrArg (fun p => p.1) heq
      have e2 : a = a0 := congrArg (fun p => p.2) heq
      subst e1
      subst e2
      exact ⟨hn0, hnc0, hac0, hd ▸ (List.prefix_append _ _).isInfix⟩
    · obtain ⟨hn, hnc, hac, hinf⟩ := ih n a hmem
      exact ⟨hn, hnc, hac, hd ▸ hinf.trans (List.suffix_append _ _).isInfix⟩
  | case3 c cs hnone ih =>
    intro n a h
    rw [findallL_cons_none hnone] at h
    obtain ⟨hn, hnc, hac, hinf⟩ := ih n a h
    exact ⟨hn, hnc, hac, hinf.trans (List.suffix_cons c cs).isInfix⟩

/-- There is a marker-shaped substring somewhere in the text. -/
def ContainsMarker (l : List Char) : Prop :=
  ∃ n a, n ≠ [] ∧ (∀ c ∈ n, c ≠ ':') ∧ (∀ c ∈ a, c ≠ ']') ∧ markerL n a <:+: l

/-- Text without opening brackets contains no marker. -/
theorem no_bracket_no_marker {l : List Char} (h : '[' ∉ l) : ¬ ContainsMarker l := by
  rintro ⟨n, a, -, -, -, hinf⟩
  exact h (hinf.subset (by simp [markerL, tagChars]))

/-! ## C9 -/

/-- C9: the substitution pass is the identity on every text containing
no marker-shaped substring. -/
theorem marker_free_text_identity (env : MarkerEnv) (text : String)
    (h : ¬ ContainsMarker text.data) :
    ToolIntegratedLLMClient.process_tool_calls_async env text = text := by
  have hfa : findallL text.data = [] := by
    cases hm : findallL text.data with
    | nil => rfl
    | cons p rest =>
      rcases p with ⟨n, a⟩
      have hs := findallL_sound text.data n a (by rw [hm]; exact List.mem_cons_self _ _)
      exact absurd ⟨n, a, hs.1, hs.2.1, hs.2.2.1, hs.2.2.2⟩ h
  unfold ToolIntegratedLLMClient.process_tool_calls_async
  simp [hfa]

/-- A concrete substitution environment for witnesses: a two-entry JSON
oracle and a tool-call oracle answering 7. -/
def demoMarkerEnv : MarkerEnv :=
  { parse := fun s =>
      if s = "\x7b\"x\":1\x7d" then .ok (J.obj [("x", J.num 1)])
      else .error "Expecting value"
    call := fun n _ => if n = "a_foo" then "7" else "0" }

/-- C9 witness: a bracket-free text passes through unchanged. -/
theorem marker_free_text_identity_witness :
    ¬ ContainsMarker ("hello world".data) ∧
    ToolIntegratedLLMClient.process_tool_calls_async demoMarkerEnv "hello world" =
      "hello world" := by
  have h := no_bracket_no_marker (l := "hello world".data) (by decide)
  exact ⟨h, marker_free_text_identity demoMarkerEnv _ h⟩

/-! ## C5 -/

/-- The end state of one slot after the whole pass: every marker slot
holds its replacement, literal prose is untouched. -/
def substitutePiece (env : MarkerEnv) : Piece → Piece
  | .lit s => .lit s
  | .mark n a => .lit (markerReplacement env n a).data

instance (p : Piece) : Decidable (PieceWF p) := by
  cases p with
  | lit s => unfold PieceWF; infer_instance
  | mark n a => unfold PieceWF; infer_instance

/-- Every reported capture pair of a well-formed piece sequence is a
well-formed marker. -/
theorem pieceMarks_wf {ps : List Piece} (hwf : ∀ p ∈ ps, PieceWF p) :
    ∀ m ∈ pieceMarks ps, MarkWF m := by
  intro m hm
  obtain ⟨p, hp, hf⟩ := List.mem_filterMap.mp hm
  cases p with
  | lit s => cases hf
  | mark n a =>
    have e := Option.some.inj hf
    rw [← e]
    exact hwf _ hp

/-- The final text of the pass contains no opening bracket. -/
theorem substituted_no_bracket (env : MarkerEnv) {ps : List Piece}
    (hwf : ∀ p ∈ ps, PieceWF p)
    (hrepl : ∀ m ∈ pieceMarks ps, '[' ∉ (markerReplacement env m.1 m.2).data) :
    '[' ∉ renderPieces (ps.map (substitutePiece env)) := by
  intro hx
  rw [renderPieces] at hx
  obtain ⟨s, hs, hxs⟩ := List.mem_flatten.mp hx
  obtain ⟨p2, hp2, rfl⟩ := List.mem_map.mp hs
  obtain ⟨p0, hp0, rfl⟩ := List.mem_map.mp hp2
  cases p0 with
  | lit s0 => exact hwf _ hp0 hxs
  | mark n a =>
    refine hrepl (n, a) ?_ hxs
    exact List.mem_filterMap.mpr ⟨Piece.mark n a, hp0, rfl⟩

/-- Structural (fuel-indexed) evaluator for replaceAllL, so that the
kernel can compute concrete replacements; the fuel only needs to cover
the text length. -/
def replaceAllFuel (pat rep : List Char) : Nat → List Char → List Char
  | 0, l => l
  | _ + 1, [] => []
  | fuel + 1, c :: cs =>
    if pat ≠ [] ∧ pat.isPrefixOf (c :: cs) then
      rep ++ replaceAllFuel pat rep fuel ((c :: cs).drop pat.length)
    else c :: replaceAllFuel pat rep fuel cs

/-- Unfolding: the empty text. -/
theorem replaceAllL_nil (pat rep : List Char) : replaceAllL pat rep [] = [] := by
  rw [replaceAllL]

/-- Unfolding: a pattern occurrence at this character. -/
theorem replaceAllL_cons_pos {pat rep : List Char} {c : Char} {cs : List Char}
    (h : pat ≠ [] ∧ pat.isPrefixOf (c :: cs)) :
    replaceAllL pat rep (c :: cs) =
      rep ++ replaceAllL pat rep ((c :: cs).drop pat.length) := by
  rw [replaceAllL, dif_pos h]

/-- Unfolding: no pattern occurrence at this character. -/
theorem replaceAllL_cons_neg {pat rep : List Char} {c : Char} {cs : List Char}
    (h : ¬(pat ≠ [] ∧ pat.isPrefixOf (c :: cs))) :
    replaceAllL pat rep (c :: cs) = c :: replaceAllL pat rep cs := by
  rw [replaceAllL, dif_neg h]

/-- With enough fuel the structural evaluator agrees with replaceAllL. -/
theorem replaceAllFuel_eq (pat rep : List Char) : ∀ (fuel : Nat) (l : List Char),
    l.length ≤ fuel → replaceAllFuel pat rep fuel l = replaceAllL pat rep l := by
  intro fuel
  induction fuel with
  | zero =>
    intro l hl
    cases l with
    | nil => rw [replaceAllL_nil]; rfl
    | cons c cs => simp at hl
  | succ f ih =>
    intro l hl
    cases l with
    | nil => rw [replaceAllL_nil]; rfl
    | cons c cs =>
      have hlen : cs.length + 1 ≤ f + 1 := by simpa using hl
      rw [replaceAllFuel]
      by_cases hc : pat ≠ [] ∧ pat.isPrefixOf (c :: cs)
      · rw [if_pos hc, replaceAllL_cons_pos hc]
        congr 1
        apply ih
        have hp : 0 < pat.length := List.length_pos.mpr hc.1
        simp only [List.length_drop, List.length_cons]
        omega
      · rw [if_neg hc, replaceAllL_cons_neg hc]
        congr 1
        exact ih cs (by omega)

/-- Structural (fuel-indexed) evaluator for the marker scan. -/
def findallFuel : Nat → List Char → List (List Char × List Char)
  | 0, _ => []
  | _ + 1, [] => []
  | fuel + 1, c :: cs =>
    match matchMarkerAt (c :: cs) with
    | some (n, a, rest) => (n, a) :: findallFuel fuel rest
    | none => findallFuel fuel cs

/-- With enough fuel the structural evaluator agrees with findallL. -/
theorem findallFuel_eq : ∀ (fuel : Nat) (l : List Char), l.length ≤ fuel →
    findallFuel fuel l = findallL l := by
  intro fuel
  induction fuel with
  | zero =>
    intro l hl
    cases l with
    | nil => rw [findallL_nil]; rfl
    | cons c cs => simp at hl
  | succ f ih =>
    intro l hl
    cases l with
    | nil => rw [findallL_nil]; rfl
    | cons c cs =>
      have hlen : cs.length + 1 ≤ f + 1 := by simpa using hl
      rw [findallFuel]
      split
      next n a rest hm =>
        rw [findallL_cons_some hm]
        congr 1
        apply ih
        have hrest := matchMarkerAt_length hm
        simp only [List.length_cons] at hrest
        omega
      next hm =>
        rw [findallL_cons_none hm]
        exact ih cs (by omega)

/-- The counterexample text: a second marker whose argument text embeds
the first marker's whole text (the regex admits opening brackets inside
the argument class). -/
def cexText : String := "[TOOL:a:x][TOOL:b:[TOOL:a:x]]"

/-- What the pass actually produces on cexText: the first substitution
rewrites both occurrences of [TOOL:a:x] — including the one inside the
second marker's arguments — so the second marker's own text no longer
occurs, its substitution is a no-op, and a marker-shaped fragment
survives. -/
def cexOut : String :=
  "❌ Error calling a: Expecting value[TOOL:b:❌ Error calling a: Expecting value]"

/-- C5 counterexample: the scan reports marker b with malformed
arguments, yet the output carries no inline error for b, and
marker-shaped text survives in the output — the original claim fails on
the text [TOOL:a:x][TOOL:b:[TOOL:a:x]]. -/
theorem inline_marker_substitution_counterexample :
    findallL cexText.data = [("a".data, "x".data), ("b".data, "[TOOL:a:x".data)] ∧
    ToolIntegratedLLMClient.process_tool_calls_async demoMarkerEnv cexText = cexOut ∧
    listContains "❌ Error calling b".data cexOut.data = false ∧
    ContainsMarker cexOut.data := by
  have hms : findallL cexText.data =
      [("a".data, "x".data), ("b".data, "[TOOL:a:x".data)] := by
    rw [← findallFuel_eq 64 cexText.data (by decide)]
    decide
  have e1 : replaceAllL (markerL "a".data "x".data)
      (markerReplacement demoMarkerEnv "a".data "x".data).data cexText.data =
      cexOut.data := by
    rw [← replaceAllFuel_eq (markerL "a".data "x".data)
      (markerReplacement demoMarkerEnv "a".data "x".data).data 64 cexText.data (by decide)]
    decide
  have e2 : replaceAllL (markerL "b".data "[TOOL:a:x".data)
      (markerReplacement demoMarkerEnv "b".data "[TOOL:a:x".data).data cexOut.data =
      cexOut.data := by
    rw [← replaceAllFuel_eq (markerL "b".data "[TOOL:a:x".data)
      (markerReplacement demoMarkerEnv "b".data "[TOOL:a:x".data).data 128 cexOut.data
      (by decide)]
    decide
  refine ⟨hms, ?_, by decide, ?_⟩
  · unfold ToolIntegratedLLMClient.process_tool_calls_async
    simp only [hms]
    show String.mk (replaceAllL (markerL "b".data "[TOOL:a:x".data)
      (markerReplacement demoMarkerEnv "b".data "[TOOL:a:x".data).data
      (replaceAllL (markerL "a".data "x".data)
        (markerReplacement demoMarkerEnv "a".data "x".data).data cexText.data)) = cexOut
    rw [e1, e2]
  · exact ⟨"b".data, "❌ Error calling a: Expecting value".data,
      by decide, by decide, by decide,
      ⟨"❌ Error calling a: Expecting value".data, [], by decide⟩⟩

/-- C5 (amended): over any text assembled from bracket-free prose
interleaved with well-formed markers whose names and argument texts carry
no brackets, and whose replacement lines (tool results and error texts)
carry no opening bracket and no backslash — the backslash condition is
where the literal-replacement model coincides exactly with re.sub's
template processing — the pass rewrites every marker slot: a marker
whose arguments parse becomes the tool-result line, a marker with
malformed arguments becomes the inline error line, it continues past
failures to every later marker, and no marker text survives anywhere in
the output.  Without the bracket conditions the original claim is false
(see the counterexample): a marker embedded in a later marker's argument
text destroys that marker's occurrence before its own substitution
runs. -/
theorem inline_marker_substitution (env : MarkerEnv) (ps : List Piece)
    (hwf : ∀ p ∈ ps, PieceWF p)
    (hrepl : ∀ m ∈ pieceMarks ps, '[' ∉ (markerReplacement env m.1 m.2).data)
    (hnb : ∀ m ∈ pieceMarks ps, '\\' ∉ (markerReplacement env m.1 m.2).data) :
    ToolIntegratedLLMClient.process_tool_calls_async env
        (String.mk (renderPieces ps)) =
      String.mk (renderPieces (ps.map (substitutePiece env))) ∧
    ∀ m ∈ pieceMarks ps,
      ¬ (markerL m.1 m.2 <:+: renderPieces (ps.map (substitutePiece env))) := by
  have hdata : (String.mk (renderPieces ps)).data = renderPieces ps := rfl
  have hfind : findallL (renderPieces ps) = pieceMarks ps :=
    findallL_renderPieces ps hwf
  have hmwf : ∀ m ∈ pieceMarks ps, MarkWF m := pieceMarks_wf hwf
  have hkey : ps.map (replaceIfIn env (pieceMarks ps)) = ps.map (substitutePiece env) := by
    apply List.map_congr_left
    intro p hp
    cases p with
    | lit s => rfl
    | mark n a =>
      have hmem : (n, a) ∈ pieceMarks ps :=
        List.mem_filterMap.mpr ⟨Piece.mark n a, hp, rfl⟩
      simp [replaceIfIn, substitutePiece, hmem]
  constructor
  · unfold ToolIntegratedLLMClient.process_tool_calls_async
    simp only [hdata, hfind]
    by_cases hempty : (pieceMarks ps).isEmpty
    · rw [if_pos hempty]
      have hnomark : ps.map (substitutePiece env) = ps := by
        have hpt : ∀ p ∈ ps, substitutePiece env p = id p := by
          intro p hp
          cases p with
          | lit s => rfl
          | mark n a =>
            have hmem : (n, a) ∈ pieceMarks ps :=
              List.mem_filterMap.mpr ⟨Piece.mark n a, hp, rfl⟩
            rw [List.isEmpty_iff] at hempty
            rw [hempty] at hmem
            cases hmem
        rw [List.map_congr_left hpt, List.map_id]
      rw [hnomark]
    · rw [if_neg hempty]
      rw [foldl_marker_replace env (pieceMarks ps) ps hwf hmwf hrepl, hkey]
  · intro m hm hinf
    have hbr : '[' ∈ markerL m.1 m.2 := by simp [markerL, tagChars]
    exact substituted_no_bracket env hwf hrepl (hinf.subset hbr)

/-- The pieces of the witness text: prose, a valid marker, prose, a
malformed marker, prose. -/
def demoPieces : List Piece :=
  [.lit "Result: ".data, .mark "a_foo".data "\x7b\"x\":1\x7d".data,
   .lit " and ".data, .mark "b_bar".data "\x7bbad json".data, .lit "!".data]

/-- C5 witness: the valid marker becomes the tool result, the malformed
one becomes the inline error, and no marker text survives. -/
theorem inline_marker_substitution_witness :
    ToolIntegratedLLMClient.process_tool_calls_async demoMarkerEnv
        "Result: [TOOL:a_foo:\x7b\"x\":1\x7d] and [TOOL:b_bar:\x7bbad json]!" =
      "Result: 🔧 a_foo: 7 and ❌ Error calling b_bar: Expecting value!" := by
  have h := (inline_marker_substitution demoMarkerEnv demoPieces
    (by decide) (by decide) (by decide)).1
  rw [show ("Result: [TOOL:a_foo:\x7b\"x\":1\x7d] and [TOOL:b_bar:\x7bbad json]!" : String) =
    String.mk (renderPieces demoPieces) from by decide]
  rw [h]
  decide

end OllamaMCP
